import Mathlib

/-!
Shallow embedding of the twsmatrix dense-container library
(`src/include/vector.hpp`, `src/include/matrix.hpp`).

The library offers an owning 1-D container `vector`, a non-owning strided
`vectorview`, an owning column-major 2-D container `matrix`, and a non-owning
`matrixview`.  All four keep their elements in reference-counted buffers
(`std::shared_ptr<T[]>`).

Modelling conventions:
* Element type is specialised to `Int` (the library is instantiated over `int`
  in its test suite); C++ `int` arithmetic is modelled by `Int` (signed
  overflow is undefined behaviour in C++, so unbounded integers model every
  defined execution).  C++ integer division truncates toward zero and is
  modelled by `Int.tdiv`.
* The store of allocated buffers is a `Heap`: an allocation counter plus a
  total contents function.  Buffer capacities are not tracked because no
  library operation inspects them; a freshly allocated buffer's contents are
  whatever the contents function already held there, matching the unspecified
  contents of `new T[n]` for integral `T` (the debug NaN fill in the
  constructors applies only to floating-point element types).
* Every `assert(...)` in the source becomes a guard: an operation that can
  fail an assertion returns an `Option`, with `none` exactly when one of the
  transcribed assert conditions is violated.
* A raw interior pointer such as `&_data[i]` (used by `matrix::row/column`)
  is modelled as the buffer name together with the base index folded into the
  resulting view's offset.
-/

namespace tws

/-- The store of `std::shared_ptr<T[]>` allocations: `next` counts how many
buffers have been allocated so far (fresh buffers are named by this counter),
and `mem d k` is the element at index `k` of buffer `d`. -/
structure Heap where
  next : Nat
  mem : Nat → Int → Int

/-- Reading one element of buffer `d` (`data[k]`). -/
def Heap.read (h : Heap) (d : Nat) (k : Int) : Int := h.mem d k

/-- Writing one element of buffer `d` (`data[k] = x`). -/
def Heap.write (h : Heap) (d : Nat) (k : Int) (x : Int) : Heap :=
  ⟨h.next, fun d' k' => if d' = d ∧ k' = k then x else h.mem d' k'⟩

/-- Allocation (`new T[...]`): returns the fresh buffer's name and the heap
with the allocation counter advanced. -/
def Heap.alloc (h : Heap) : Nat × Heap := (h.next, ⟨h.next + 1, h.mem⟩)

/-- A heap with no allocations, all contents zero. -/
def hEmpty : Heap := ⟨0, fun _ _ => 0⟩

/-- Embeds `tws::vector<T>` (vector.hpp, lines 44-277): owning 1-D container.
Fields `_n` (length) and `_data` (the shared buffer). -/
structure vector where
  n : Int
  dataId : Nat
  deriving DecidableEq

/-- Embeds `tws::vectorview<T>` (vector.hpp, lines 287-445): non-owning 1-D
container.  Fields `_n`, `_stride`, `_offset`, `_data`. -/
structure vectorview where
  n : Int
  stride : Int
  offset : Int
  dataId : Nat
  deriving DecidableEq

/-- Embeds `tws::matrix<T>` (matrix.hpp, lines 41-313): owning column-major 2-D
container.  Fields `_m` (rows), `_n` (columns), `_data`. -/
structure matrix where
  m : Int
  n : Int
  dataId : Nat
  deriving DecidableEq

/-- Embeds `tws::matrixview<T>` (matrix.hpp, lines 323-578): non-owning column-major
2-D container.  Fields `_m`, `_n`, `_ldim`, `_offset`, `_data`. -/
structure matrixview where
  m : Int
  n : Int
  ldim : Int
  offset : Int
  dataId : Nat
  deriving DecidableEq

/-- The assert conditions of `vector::vector(int n)` (vector.hpp, line 56).
The constructor body contains no assert, so the list is empty. -/
def vector.ctorAsserts (_n : Int) : Prop := True

/-- Embeds `vector::vector(int n)` (vector.hpp, lines 56-65): `_n(n),
_data(new T[_n])`.  No assertion is performed on `n`; the `#ifndef NDEBUG`
NaN fill applies only to floating-point element types. -/
def vector.mk' (n : Int) (h : Heap) : vector × Heap :=
  let a := h.alloc
  (⟨n, a.1⟩, a.2)

/-- Embeds `vector::operator[]` (vector.hpp, lines 196-215): `assert(i < _n);
assert(i >= 0); return _data[i];`. -/
def vector.get (h : Heap) (v : vector) (i : Int) : Option Int :=
  if i < v.n ∧ 0 ≤ i then some (h.read v.dataId i) else none

/-- Writing through the mutable `vector::operator[]` (same asserts). -/
def vector.set (h : Heap) (v : vector) (i x : Int) : Option Heap :=
  if i < v.n ∧ 0 ≤ i then some (h.write v.dataId i x) else none

/-- Embeds `vector::vector(const vector&)` (vector.hpp, lines 96-101): allocates a
fresh buffer of the source's length and copies `_data[i] = v[i]` for
`i = 0..n-1` — a deep copy. -/
def vector.copyCtor (h : Heap) (v : vector) : vector × Heap :=
  let a := h.alloc
  (⟨v.n, a.1⟩,
    (List.range v.n.toNat).foldl
      (fun hh (i : Nat) => hh.write a.1 (i : Int) (hh.read v.dataId (i : Int))) a.2)

/-- Embeds `vector::operator=(const vector&)` (vector.hpp, lines 140-147):
`assert(v.size() == _n)`, then `_data[i] = v[i]` for `i = 0..n-1`.  The
destination handle (`*this`) is returned unchanged: `_data` is not rebound. -/
def vector.assign (h : Heap) (dst src : vector) : Option (vector × Heap) :=
  if src.n = dst.n then
    some (dst,
      (List.range dst.n.toNat).foldl
        (fun hh (i : Nat) => hh.write dst.dataId (i : Int) (hh.read src.dataId (i : Int))) h)
  else none

/-- Embeds `vector::subvector(start, end, stride)` (vector.hpp, lines 235-242):
asserts `start >= 0`, `end <= _n`, `start < end`, `stride > 0`; returns
`vectorview((end - start) / stride, _data, stride, start)` (C++ truncating
integer division).  `stop` stands for the source's `end` parameter. -/
def vector.subvector (v : vector) (start stop stride : Int) : Option vectorview :=
  if 0 ≤ start ∧ stop ≤ v.n ∧ start < stop ∧ 0 < stride then
    some ⟨(stop - start).tdiv stride, stride, start, v.dataId⟩
  else none

/-- Embeds `vectorview::operator[]` (vector.hpp, lines 377-396): `assert(i < _n);
assert(i >= 0); return _data[_offset + i * _stride];`. -/
def vectorview.get (h : Heap) (v : vectorview) (i : Int) : Option Int :=
  if i < v.n ∧ 0 ≤ i then some (h.read v.dataId (v.offset + i * v.stride)) else none

/-- Writing through the mutable `vectorview::operator[]` (same asserts). -/
def vectorview.set (h : Heap) (v : vectorview) (i x : Int) : Option Heap :=
  if i < v.n ∧ 0 ≤ i then some (h.write v.dataId (v.offset + i * v.stride) x) else none

/-- Embeds `vectorview::vectorview(const vectorview&)` (vector.hpp, lines 311-313):
copies the `(_n, _stride, _offset, _data)` tuple — a shallow copy, no
element is touched. -/
def vectorview.copyCtor (h : Heap) (v : vectorview) : vectorview × Heap :=
  (⟨v.n, v.stride, v.offset, v.dataId⟩, h)

/-- Embeds `vectorview::operator=(const vectorview&)` (vector.hpp, lines 333-340):
`assert(v.size() == _n); assert(v.stride() == _stride);
assert(v.offset() == _offset); _data = v._data;` — only the buffer reference
is replaced (the other members are `const`), no element is written. -/
def vectorview.assign (h : Heap) (dst src : vectorview) : Option (vectorview × Heap) :=
  if src.n = dst.n ∧ src.stride = dst.stride ∧ src.offset = dst.offset then
    some (⟨dst.n, dst.stride, dst.offset, src.dataId⟩, h)
  else none

/-- Embeds `vectorview::operator=(vectorview&&)` (vector.hpp, lines 351-358): the
same asserts and the same `_data = v._data` as the copy assignment. -/
def vectorview.assignMove (h : Heap) (dst src : vectorview) : Option (vectorview × Heap) :=
  if src.n = dst.n ∧ src.stride = dst.stride ∧ src.offset = dst.offset then
    some (⟨dst.n, dst.stride, dst.offset, src.dataId⟩, h)
  else none

/-- Embeds `vectorview::subvector(start, end, stride)` (vector.hpp, lines 416-424):
asserts `start >= 0`, `end <= _n`, `start < end`, `stride > 0`; returns
`vectorview((end - start) / stride, _data, _stride * stride,
_offset + start * _stride)`. -/
def vectorview.subvector (v : vectorview) (start stop stride : Int) : Option vectorview :=
  if 0 ≤ start ∧ stop ≤ v.n ∧ start < stop ∧ 0 < stride then
    some ⟨(stop - start).tdiv stride, v.stride * stride, v.offset + start * v.stride, v.dataId⟩
  else none

/-- The assert conditions of `matrix::matrix(int m, int n)` (matrix.hpp,
line 58).  The constructor body contains no assert, so the list is empty. -/
def matrix.ctorAsserts (_m _n : Int) : Prop := True

/-- Embeds `matrix::matrix(int m, int n)` (matrix.hpp, lines 58-69): `_m(m), _n(n),
_data(new T[_m * _n])`.  No assertion is performed on the extents. -/
def matrix.mk' (m n : Int) (h : Heap) : matrix × Heap :=
  let a := h.alloc
  (⟨m, n, a.1⟩, a.2)

/-- Embeds `matrix::operator()` (matrix.hpp, lines 214-235): `assert(i < _m);
assert(j < _n); return _data[i + j * _m];`.  Note: unlike the other three
containers' accessors, there is no `i >= 0` / `j >= 0` assert. -/
def matrix.get (h : Heap) (A : matrix) (i j : Int) : Option Int :=
  if i < A.m ∧ j < A.n then some (h.read A.dataId (i + j * A.m)) else none

/-- Writing through the mutable `matrix::operator()` (same asserts: only the
upper bounds are checked). -/
def matrix.set (h : Heap) (A : matrix) (i j x : Int) : Option Heap :=
  if i < A.m ∧ j < A.n then some (h.write A.dataId (i + j * A.m) x) else none

/-- Embeds `matrix::operator=(const matrix&)` (matrix.hpp, lines 138-148): asserts
`m.num_rows() == _m` and `m.num_columns() == _n`, then
`_data[i + j * _m] = m(i, j)` in a row-outer/column-inner double loop.  The
destination handle is returned unchanged: `_data` is not rebound. -/
def matrix.assign (h : Heap) (dst src : matrix) : Option (matrix × Heap) :=
  if src.m = dst.m ∧ src.n = dst.n then
    some (dst,
      (List.range dst.m.toNat).foldl
        (fun hh (i : Nat) =>
          (List.range dst.n.toNat).foldl
            (fun hh2 (j : Nat) =>
              hh2.write dst.dataId ((i : Int) + (j : Int) * dst.m)
                (hh2.read src.dataId ((i : Int) + (j : Int) * src.m))) hh) h)
  else none

/-- Embeds `matrix::submatrix(i1, i2, j1, j2)` (matrix.hpp, lines 253-262): asserts
`i1 >= 0`, `i2 <= _m`, `j1 >= 0`, `j2 <= _n`, `i1 < i2`, `j1 < j2`; returns
`matrixview(i2 - i1, j2 - j1, _data, _m, i1 + j1 * _m)`. -/
def matrix.submatrix (A : matrix) (i1 i2 j1 j2 : Int) : Option matrixview :=
  if 0 ≤ i1 ∧ i2 ≤ A.m ∧ 0 ≤ j1 ∧ j2 ≤ A.n ∧ i1 < i2 ∧ j1 < j2 then
    some ⟨i2 - i1, j2 - j1, A.m, i1 + j1 * A.m, A.dataId⟩
  else none

/-- Embeds `matrix::column(i)` (matrix.hpp, lines 273-278): asserts `i >= 0`,
`i < _n`; returns `vectorview(_m, &_data[i * _m], 1)` — length `_m`,
stride 1, over the matrix's buffer based at index `i * _m`. -/
def matrix.column (A : matrix) (j : Int) : Option vectorview :=
  if 0 ≤ j ∧ j < A.n then some ⟨A.m, 1, j * A.m, A.dataId⟩ else none

/-- Embeds `matrix::row(i)` (matrix.hpp, lines 289-294): asserts `i >= 0`,
`i < _m`; returns `vectorview(_n, &_data[i], _m)` — length `_n`, stride
`_m`, over the matrix's buffer based at index `i`. -/
def matrix.row (A : matrix) (i : Int) : Option vectorview :=
  if 0 ≤ i ∧ i < A.m then some ⟨A.n, A.m, i, A.dataId⟩ else none

/-- Embeds `matrixview::operator()` (matrix.hpp, lines 470-495): `assert(i < _m);
assert(i >= 0); assert(j < _n); assert(j >= 0);
return _data[_offset + i + j * _ldim];`. -/
def matrixview.get (h : Heap) (V : matrixview) (i j : Int) : Option Int :=
  if i < V.m ∧ 0 ≤ i ∧ j < V.n ∧ 0 ≤ j then
    some (h.read V.dataId (V.offset + i + j * V.ldim))
  else none

/-- Writing through the mutable `matrixview::operator()` (same asserts). -/
def matrixview.set (h : Heap) (V : matrixview) (i j x : Int) : Option Heap :=
  if i < V.m ∧ 0 ≤ i ∧ j < V.n ∧ 0 ≤ j then
    some (h.write V.dataId (V.offset + i + j * V.ldim) x)
  else none

/-- Embeds `matrixview::operator=(const matrixview&)` (matrix.hpp, lines 414-422):
no assert at all; assigns every member (`_m`, `_n`, `_ldim`, `_offset`,
`_data`) from the source — a shallow copy, no element is written. -/
def matrixview.assign (h : Heap) (_dst src : matrixview) : Option (matrixview × Heap) :=
  some (⟨src.m, src.n, src.ldim, src.offset, src.dataId⟩, h)

/-- The generic test routine `add_one_ref` (test_vector.cpp, lines 9-15),
instantiated at `V = vector<T>`: `v[i] += 1` for `i = 0..size-1`. -/
def add_one_ref_vector (h : Heap) (v : vector) : Heap :=
  (List.range v.n.toNat).foldl
    (fun hh (i : Nat) => hh.write v.dataId (i : Int) (hh.read v.dataId (i : Int) + 1)) h

/-- The generic test routine `add_one_ref`, instantiated at
`V = vectorview<T>`: `v[i] += 1` addresses `_offset + i * _stride`. -/
def add_one_ref_vectorview (h : Heap) (v : vectorview) : Heap :=
  (List.range v.n.toNat).foldl
    (fun hh (i : Nat) =>
      hh.write v.dataId (v.offset + (i : Int) * v.stride)
        (hh.read v.dataId (v.offset + (i : Int) * v.stride) + 1)) h

/-- The generic test routine `add_one_value` (test_vector.cpp, lines 17-23),
instantiated at `V = vector<T>`: the by-value parameter is built by the
copy constructor (deep copy), then incremented in place. -/
def add_one_value_vector (h : Heap) (v : vector) : Heap :=
  let c := vector.copyCtor h v
  add_one_ref_vector c.2 c.1

/-- The generic test routine `add_one_value`, instantiated at
`V = vectorview<T>`: the by-value parameter is built by the vectorview copy
constructor (shallow copy), then incremented in place. -/
def add_one_value_vectorview (h : Heap) (v : vectorview) : Heap :=
  let c := vectorview.copyCtor h v
  add_one_ref_vectorview c.2 c.1

/-- The test driver's fill loop (test_matrix.cpp, lines 40-44):
`for j: for i: A(i, j) = i + j`. -/
def fill_i_plus_j (h : Heap) (A : matrix) : Heap :=
  (List.range A.n.toNat).foldl
    (fun hh (j : Nat) =>
      (List.range A.m.toNat).foldl
        (fun hh2 (i : Nat) =>
          hh2.write A.dataId ((i : Int) + (j : Int) * A.m) ((i : Int) + (j : Int))) hh) h

/-- The length formula the specification states for `subvector`: ceiling
division of `end - start` by the requested stride. -/
def specCeilDiv (a b : Int) : Int := (a + b - 1).ediv b

/-- A 4×3 matrix allocated in the empty heap. -/
def demoA : matrix := (matrix.mk' 4 3 hEmpty).1

/-- The heap after filling `demoA` with `A(i, j) = i + j`. -/
def demoH : Heap := fill_i_plus_j (matrix.mk' 4 3 hEmpty).2 demoA

/-- A heap holding two allocated buffers: buffer 0 is constant 5, buffer 1 is
constant 7. -/
def hTwoBufs : Heap := ⟨2, fun d _ => if d = 0 then 5 else 7⟩

/-! Helper lemmas about the heap and the element loops. -/

/-- Reading after a single write. -/
lemma Heap.read_write (h : Heap) (d : Nat) (k : Int) (x : Int) (d' : Nat) (k' : Int) :
    (h.write d k x).read d' k' = if d' = d ∧ k' = k then x else h.read d' k' := rfl

/-- A write does not change the allocation counter. -/
lemma Heap.write_next (h : Heap) (d : Nat) (k : Int) (x : Int) :
    (h.write d k x).next = h.next := rfl

/-- The count `countP` only depends on the predicate's values on the list. -/
lemma countP_congr' {α : Type} (L : List α) (p q : α → Bool)
    (hpq : ∀ x ∈ L, p x = q x) : L.countP p = L.countP q := by
  induction L with
  | nil => rfl
  | cons a t ih =>
    rw [List.countP_cons, List.countP_cons, hpq a (List.mem_cons_self a t),
      ih fun x hx => hpq x (List.mem_cons_of_mem a hx)]

/-- Each value below `n` occurs exactly once in `List.range n`. -/
lemma countP_range_self (n j : Nat) (hj : j < n) :
    (List.range n).countP (fun x => decide (x = j)) = 1 := by
  induction n with
  | zero => omega
  | succ n ih =>
    rw [List.range_succ, List.countP_append]
    rcases Nat.lt_or_ge j n with hlt | hge
    · rw [ih hlt]
      have : (List.range n).countP (fun x => decide (x = j)) = 1 := ih hlt
      have hne : n ≠ j := by omega
      simp [List.countP_cons, hne]
    · have hj' : j = n := by omega
      subst hj'
      have h0 : (List.range j).countP (fun x => decide (x = j)) = 0 := by
        rw [List.countP_eq_zero]
        intro a ha
        simp only [List.mem_range] at ha
        simp only [decide_eq_true_eq]
        omega
      simp [h0, List.countP_cons]

/-- Effect of a loop of element increments (`v[i] += 1` over a list of
addresses `g x` in buffer `d`): each cell gains one unit per loop iteration
that addresses it. -/
lemma bump_loop {ι : Type} (d : Nat) (g : ι → Int) (L : List ι) (h : Heap)
    (d' : Nat) (q : Int) :
    ((L.foldl (fun hh x => hh.write d (g x) (hh.read d (g x) + 1)) h).read d' q)
      = h.read d' q + (L.countP (fun x => decide (d' = d ∧ q = g x)) : Int) := by
  induction L generalizing h with
  | nil => simp
  | cons a t ih =>
    rw [List.foldl_cons, ih, List.countP_cons, Heap.read_write]
    by_cases hc : d' = d ∧ q = g a
    · rw [if_pos hc, decide_eq_true hc]
      obtain ⟨hc1, hc2⟩ := hc
      subst hc1; subst hc2
      simp only [if_pos rfl]
      push_cast
      ring
    · rw [if_neg hc, decide_eq_false hc]
      simp only [Bool.false_eq_true, if_false]
      push_cast
      ring

/-- Effect of an element-copy loop (`dstbuf[g x] = srcbuf[f x]` over a list of
iterations, with destination buffer `d` different from source buffer `s` and
pairwise distinct destination addresses): the source buffer and every other
buffer are untouched, untargeted destination cells are untouched, and each
targeted destination cell holds the corresponding source value. -/
lemma copy_loop {ι : Type} (d s : Nat) (hsd : s ≠ d) (g f : ι → Int)
    (L : List ι) (h : Heap) (hnd : (L.map g).Nodup) :
    (∀ d' q, d' ≠ d →
      ((L.foldl (fun hh x => hh.write d (g x) (hh.read s (f x))) h).read d' q)
        = h.read d' q) ∧
    (∀ q, (∀ x ∈ L, g x ≠ q) →
      ((L.foldl (fun hh x => hh.write d (g x) (hh.read s (f x))) h).read d q)
        = h.read d q) ∧
    (∀ x ∈ L,
      ((L.foldl (fun hh x => hh.write d (g x) (hh.read s (f x))) h).read d (g x))
        = h.read s (f x)) := by
  induction L generalizing h with
  | nil => exact ⟨fun _ _ _ => rfl, fun _ _ => rfl, fun x hx => absurd hx (List.not_mem_nil x)⟩
  | cons a t ih =>
    rw [List.map_cons, List.nodup_cons] at hnd
    obtain ⟨hga, hndt⟩ := hnd
    have ih' := ih (h.write d (g a) (h.read s (f a))) hndt
    refine ⟨?_, ?_, ?_⟩
    · intro d' q hd'
      rw [List.foldl_cons, ih'.1 d' q hd', Heap.read_write,
        if_neg (fun hc => hd' hc.1)]
    · intro q hq
      have hqa : g a ≠ q := hq a (List.mem_cons_self a t)
      rw [List.foldl_cons,
        ih'.2.1 q (fun x hx => hq x (List.mem_cons_of_mem a hx)),
        Heap.read_write, if_neg (fun hc => hqa hc.2.symm)]
    · intro x hx
      rcases List.mem_cons.mp hx with hxa | hxt
      · subst hxa
        have hnot : ∀ y ∈ t, g y ≠ g x := by
          intro y hy hgy
          exact hga (hgy ▸ List.mem_map_of_mem g hy)
        rw [List.foldl_cons, ih'.2.1 (g x) hnot, Heap.read_write,
          if_pos ⟨rfl, rfl⟩]
      · rw [List.foldl_cons, ih'.2.2 x hxt, Heap.read_write,
          if_neg (fun hc => hsd hc.1)]

/-- Flattening a doubly nested element loop into a single loop over the list
product of the index ranges. -/
lemma foldl_foldl_product {α β : Type} (L1 : List α) (L2 : List β)
    (F : Heap → α → β → Heap) (h : Heap) :
    (L1.foldl (fun hh a => L2.foldl (fun hh2 b => F hh2 a b) hh) h)
      = ((L1 ×ˢ L2).foldl (fun hh p => F hh p.1 p.2) h) := by
  induction L1 generalizing h with
  | nil => rfl
  | cons a t ih =>
    rw [List.foldl_cons, List.product_cons, List.foldl_append, List.foldl_map, ih]

/-- Column-major addressing is injective on a column of height `M`. -/
lemma colmajor_inj (M i j i' j' : Int) (hi : 0 ≤ i) (hiM : i < M)
    (hi' : 0 ≤ i') (hi'M : i' < M) (e : i + j * M = i' + j' * M) :
    i = i' ∧ j = j' := by
  have hMpos : 0 < M := lt_of_le_of_lt hi hiM
  have hk : i - i' = (j' - j) * M := by
    have hsplit : (j' - j) * M = j' * M - j * M := by ring
    rw [hsplit]
    linarith
  rcases lt_trichotomy (j' - j) 0 with hneg | hzero | hpos
  · exfalso
    have h1 : j' - j ≤ -1 := by omega
    have h2 : (j' - j) * M ≤ -M := by
      have := mul_le_mul_of_nonneg_right h1 hMpos.le
      linarith
    linarith
  · have hj : j' = j := by omega
    subst hj
    have hz : (j' - j') * M = 0 := by ring
    exact ⟨by linarith, rfl⟩
  · exfalso
    have h1 : 1 ≤ j' - j := by omega
    have h2 : M ≤ (j' - j) * M := by
      have := mul_le_mul_of_nonneg_right h1 hMpos.le
      linarith
    linarith

/-! Claim theorems. -/

/-- C3 counterexample: with two views of identical geometry over different
buffers, `vectorview::operator=` replaces the destination's buffer reference
(buffer 0 becomes buffer 1) and stores no element — the heap comes back
unchanged, so the destination's mapped position (buffer 0, index 0) still
holds 5, not the source element 7; and `matrixview::operator=` accepts
operands of unequal extents (1×1 vs 2×3), there being no assert at all. -/
theorem C3_counterexample :
    vectorview.assign hTwoBufs ⟨2, 1, 0, 0⟩ ⟨2, 1, 0, 1⟩
        = some (⟨2, 1, 0, 1⟩, hTwoBufs) ∧
    (⟨2, 1, 0, 1⟩ : vectorview).dataId ≠ (⟨2, 1, 0, 0⟩ : vectorview).dataId ∧
    hTwoBufs.read 0 0 = 5 ∧ hTwoBufs.read 1 0 = 7 ∧
    matrixview.assign hTwoBufs ⟨1, 1, 1, 0, 0⟩ ⟨2, 3, 2, 0, 1⟩
        = some (⟨2, 3, 2, 0, 1⟩, hTwoBufs) :=
  ⟨rfl, by decide, rfl, rfl, rfl⟩

/-- C3 (amended): assignment between two vectorviews asserts equal size,
equal stride and equal offset (failing the assertion otherwise), and under
that precondition replaces the destination's buffer reference by the
source's, storing no element; assignment between two matrixviews performs no
assertion and copies all five members (extents, leading dimension, offset,
buffer reference) from the source, likewise storing no element.  In both
cases the heap is returned unchanged. -/
theorem C3_view_assignment_shallow (h : Heap) (dst src : vectorview)
    (dm sm : matrixview)
    (hg : src.n = dst.n ∧ src.stride = dst.stride ∧ src.offset = dst.offset) :
    vectorview.assign h dst src
        = some (⟨dst.n, dst.stride, dst.offset, src.dataId⟩, h) ∧
    (∀ p q : vectorview, ¬(q.n = p.n ∧ q.stride = p.stride ∧ q.offset = p.offset) →
      vectorview.assign h p q = none) ∧
    matrixview.assign h dm sm
        = some (⟨sm.m, sm.n, sm.ldim, sm.offset, sm.dataId⟩, h) := by
  refine ⟨?_, ?_, rfl⟩
  · simp only [vectorview.assign]
    rw [if_pos hg]
  · intro p q hpq
    simp only [vectorview.assign]
    rw [if_neg hpq]

/-- Witness for C3 (amended) at a concrete input. -/
theorem C3_view_assignment_shallow_witness :
    vectorview.assign hTwoBufs ⟨3, 2, 1, 0⟩ ⟨3, 2, 1, 1⟩
        = some (⟨3, 2, 1, 1⟩, hTwoBufs) ∧
    matrixview.assign hTwoBufs ⟨1, 1, 1, 0, 0⟩ ⟨2, 3, 2, 0, 1⟩
        = some (⟨2, 3, 2, 0, 1⟩, hTwoBufs) :=
  ⟨(C3_view_assignment_shallow hTwoBufs ⟨3, 2, 1, 0⟩ ⟨3, 2, 1, 1⟩
      ⟨1, 1, 1, 0, 0⟩ ⟨2, 3, 2, 0, 1⟩ (by decide)).1,
   (C3_view_assignment_shallow hTwoBufs ⟨3, 2, 1, 0⟩ ⟨3, 2, 1, 1⟩
      ⟨1, 1, 1, 0, 0⟩ ⟨2, 3, 2, 0, 1⟩ (by decide)).2.2⟩

/-- C5 counterexample: on a length-10 vector, `subvector(0, 3, 2)` returns a
view of length (3 - 0) / 2 truncated = 1, while the ceiling of (3 - 0) / 2
claimed by the specification is 2 (the view drops the element at index 2). -/
theorem C5_counterexample :
    (vector.subvector ⟨10, 0⟩ 0 3 2).map vectorview.n = some 1 ∧
    (vectorview.subvector ⟨10, 1, 0, 0⟩ 0 3 2).map vectorview.n = some 1 ∧
    specCeilDiv (3 - 0) 2 = 2 ∧ (1 : Int) ≠ 2 := by decide

/-- C5 (amended): for every valid call `subvector(start, end, stride)` on a
vector or a vectorview, the length of the returned view equals the floor
(truncating) division of (end - start) by stride — not the ceiling. -/
theorem C5_subvector_length_floor (v : vector) (w : vectorview)
    (start stop stride : Int) (h1 : 0 ≤ start) (h2v : stop ≤ v.n)
    (h2w : stop ≤ w.n) (h3 : start < stop) (h4 : 0 < stride) :
    (vector.subvector v start stop stride).map vectorview.n
        = some ((stop - start).ediv stride) ∧
    (vectorview.subvector w start stop stride).map vectorview.n
        = some ((stop - start).ediv stride) := by
  have hnum : (0 : Int) ≤ stop - start := by linarith
  have heq : (stop - start).tdiv stride = (stop - start).ediv stride :=
    Int.tdiv_eq_ediv hnum h4.le
  constructor
  · simp only [vector.subvector]
    rw [if_pos ⟨h1, h2v, h3, h4⟩]
    simp [heq]
  · simp only [vectorview.subvector]
    rw [if_pos ⟨h1, h2w, h3, h4⟩]
    simp [heq]

/-- Witness for C5 (amended) at a concrete input. -/
theorem C5_subvector_length_floor_witness :
    (vector.subvector ⟨10, 0⟩ 1 9 2).map vectorview.n
        = some (((9 : Int) - 1).ediv 2) ∧
    (vectorview.subvector ⟨10, 1, 0, 0⟩ 1 9 2).map vectorview.n
        = some (((9 : Int) - 1).ediv 2) :=
  C5_subvector_length_floor ⟨10, 0⟩ ⟨10, 1, 0, 0⟩ 1 9 2 (by decide) (by decide)
    (by decide) (by decide) (by decide)

/-- C6: the transcribed asserts reject a negative index on `vector`,
`vectorview` and `matrixview`, but `matrix::operator()` asserts only the
upper bounds `i < _m` and `j < _n`, so the access `A(-1, 0)` on a 2×2 matrix
passes the assertions and reads out of bounds (the claim of a uniform
`0 ≤ index < extent` check is the evident intent; the missing lower-bound
asserts in `matrix::operator()` are a slip). -/
theorem C6_matrix_access_misses_lower_bound_check :
    vector.get hTwoBufs ⟨2, 0⟩ (-1) = none ∧
    vectorview.get hTwoBufs ⟨2, 1, 0, 0⟩ (-1) = none ∧
    matrixview.get hTwoBufs ⟨2, 2, 2, 0, 0⟩ (-1) 0 = none ∧
    (matrix.get hTwoBufs ⟨2, 2, 0⟩ (-1) 0).isSome = true ∧
    (matrix.set hTwoBufs ⟨2, 2, 0⟩ (-1) 0 99).isSome = true := by
  refine ⟨by decide, by decide, by decide, rfl, rfl⟩

/-- C9 counterexample: the allocating constructors of `vector` and `matrix`
contain no assertion at all, so at the non-positive extent 0 the transcribed
assert-condition lists hold trivially and construction succeeds (yielding a
container that reports extent 0) instead of failing. -/
theorem C9_counterexample :
    (0 : Int) ≤ 0 ∧ vector.ctorAsserts 0 ∧ matrix.ctorAsserts 0 0 ∧
    vector.mk' 0 hEmpty = (⟨0, 0⟩, ⟨1, hEmpty.mem⟩) ∧
    matrix.mk' 0 0 hEmpty = (⟨0, 0, 0⟩, ⟨1, hEmpty.mem⟩) :=
  ⟨le_refl 0, trivial, trivial, rfl, rfl⟩

/-- C9 (amended): the allocating constructors perform no assertion on the
requested extents; construction succeeds for every extent (positive or not),
records the requested extents unchanged, and references a freshly allocated
buffer. -/
theorem C9_ctor_no_extent_assert (m n : Int) (h : Heap) :
    vector.ctorAsserts n ∧ matrix.ctorAsserts m n ∧
    vector.mk' n h = (⟨n, h.next⟩, ⟨h.next + 1, h.mem⟩) ∧
    matrix.mk' m n h = (⟨m, n, h.next⟩, ⟨h.next + 1, h.mem⟩) :=
  ⟨trivial, trivial, rfl, rfl⟩

/-- C10: vectorview copy assignment and move assignment both assert that the
source's size, stride and offset all equal the destination's, and under that
precondition they replace the destination's buffer reference with the
source's without writing any element (the heap is returned unchanged); when
any of the three fields differ, the assertion fails. -/
theorem C10_view_assignment_asserts_and_rebinds (h : Heap) (dst src : vectorview)
    (hg : src.n = dst.n ∧ src.stride = dst.stride ∧ src.offset = dst.offset) :
    vectorview.assign h dst src
        = some (⟨dst.n, dst.stride, dst.offset, src.dataId⟩, h) ∧
    vectorview.assignMove h dst src
        = some (⟨dst.n, dst.stride, dst.offset, src.dataId⟩, h) ∧
    (∀ p q : vectorview, ¬(q.n = p.n ∧ q.stride = p.stride ∧ q.offset = p.offset) →
      vectorview.assign h p q = none ∧ vectorview.assignMove h p q = none) := by
  refine ⟨?_, ?_, ?_⟩
  · simp only [vectorview.assign]
    rw [if_pos hg]
  · simp only [vectorview.assignMove]
    rw [if_pos hg]
  · intro p q hpq
    constructor
    · simp only [vectorview.assign]
      rw [if_neg hpq]
    · simp only [vectorview.assignMove]
      rw [if_neg hpq]

/-- Witness for C10 at a concrete input. -/
theorem C10_view_assignment_asserts_and_rebinds_witness :
    vectorview.assign hTwoBufs ⟨2, 1, 0, 0⟩ ⟨2, 1, 0, 1⟩
        = some (⟨2, 1, 0, 1⟩, hTwoBufs) ∧
    vectorview.assignMove hTwoBufs ⟨2, 1, 0, 0⟩ ⟨2, 1, 0, 1⟩
        = some (⟨2, 1, 0, 1⟩, hTwoBufs) :=
  ⟨(C10_view_assignment_asserts_and_rebinds hTwoBufs ⟨2, 1, 0, 0⟩ ⟨2, 1, 0, 1⟩
      (by decide)).1,
   (C10_view_assignment_asserts_and_rebinds hTwoBufs ⟨2, 1, 0, 0⟩ ⟨2, 1, 0, 1⟩
      (by decide)).2.1⟩

/-- C4: re-slicing a vectorview composes — the returned view's offset is
`offset + start * stride_old` and its stride is `stride_old * stride`; and a
length-10 vector sliced to [1, 9) with stride 2 yields a 4-element view
whose elements are the original's elements at indices 1, 3, 5, 7. -/
theorem C4_subvector_composes (v : vectorview) (u : vector) (hh : Heap)
    (start stop stride : Int) (hu : u.n = 10) (h1 : 0 ≤ start)
    (h2 : stop ≤ v.n) (h3 : start < stop) (h4 : 0 < stride) :
    vectorview.subvector v start stop stride
        = some ⟨(stop - start).tdiv stride, v.stride * stride,
                v.offset + start * v.stride, v.dataId⟩ ∧
    vector.subvector u 1 9 2 = some ⟨4, 2, 1, u.dataId⟩ ∧
    (∀ k : Int, 0 ≤ k → k < 4 →
      vectorview.get hh ⟨4, 2, 1, u.dataId⟩ k = vector.get hh u (1 + 2 * k)) := by
  refine ⟨?_, ?_, ?_⟩
  · simp only [vectorview.subvector]
    rw [if_pos ⟨h1, h2, h3, h4⟩]
  · simp only [vector.subvector, hu]
    rw [if_pos (by norm_num : (0 : Int) ≤ 1 ∧ (9 : Int) ≤ 10 ∧ (1 : Int) < 9 ∧ (0 : Int) < 2)]
    have ht : ((9 : Int) - 1).tdiv 2 = 4 := by decide
    rw [ht]
  · intro k hk0 hk4
    have hlt : 1 + 2 * k < u.n := by rw [hu]; linarith
    have hge : (0 : Int) ≤ 1 + 2 * k := by linarith
    simp only [vectorview.get, vector.get]
    rw [if_pos ⟨hk4, hk0⟩, if_pos ⟨hlt, hge⟩]
    have harg : (1 : Int) + k * 2 = 1 + 2 * k := by ring
    rw [harg]

/-- Witness for C4 at a concrete input. -/
theorem C4_subvector_composes_witness :
    vectorview.subvector ⟨10, 1, 0, 0⟩ 1 9 2 = some ⟨4, 2, 1, 0⟩ ∧
    vector.subvector ⟨10, 0⟩ 1 9 2 = some ⟨4, 2, 1, 0⟩ ∧
    (∀ k : Int, 0 ≤ k → k < 4 →
      vectorview.get hTwoBufs ⟨4, 2, 1, 0⟩ k
        = vector.get hTwoBufs ⟨10, 0⟩ (1 + 2 * k)) :=
  C4_subvector_composes ⟨10, 1, 0, 0⟩ ⟨10, 0⟩ hTwoBufs 1 9 2 rfl (by decide)
    (by decide) (by decide) (by decide)

/-- C2: a submatrix view aliases its parent: writing `x` through the view at
valid (i, j) is read back through the parent at (i1 + i, j1 + j) and vice
versa; concretely, on a 4×3 matrix filled with `A(i, j) = i + j`,
`A.submatrix(1, 3, 1, 3)` is a 2×2 view whose (0, 0) element is 2, and
writing 99 through the view's (0, 0) makes `A(1, 1)` read 99. -/
theorem C2_submatrix_aliasing (h : Heap) (A : matrix) (V : matrixview)
    (i1 i2 j1 j2 i j x : Int)
    (hV : A.submatrix i1 i2 j1 j2 = some V)
    (hi0 : 0 ≤ i) (hiV : i < V.m) (hj0 : 0 ≤ j) (hjV : j < V.n) :
    V.m = i2 - i1 ∧ V.n = j2 - j1 ∧
    (∀ h2, matrixview.set h V i j x = some h2 →
      matrix.get h2 A (i1 + i) (j1 + j) = some x) ∧
    (∀ h2, matrix.set h A (i1 + i) (j1 + j) x = some h2 →
      matrixview.get h2 V i j = some x) ∧
    demoA.submatrix 1 3 1 3 = some ⟨2, 2, 4, 5, 0⟩ ∧
    matrixview.get demoH ⟨2, 2, 4, 5, 0⟩ 0 0 = some 2 ∧
    (matrixview.set demoH ⟨2, 2, 4, 5, 0⟩ 0 0 99).bind
        (fun h2 => matrix.get h2 demoA 1 1) = some 99 := by
  simp only [matrix.submatrix] at hV
  by_cases hg : 0 ≤ i1 ∧ i2 ≤ A.m ∧ 0 ≤ j1 ∧ j2 ≤ A.n ∧ i1 < i2 ∧ j1 < j2
  case neg =>
    rw [if_neg hg] at hV
    exact absurd hV (by simp)
  case pos =>
    rw [if_pos hg] at hV
    have hVeq : (⟨i2 - i1, j2 - j1, A.m, i1 + j1 * A.m, A.dataId⟩ : matrixview) = V :=
      Option.some.inj hV
    subst hVeq
    have hiV' : i < i2 - i1 := hiV
    have hjV' : j < j2 - j1 := hjV
    have hbi : i1 + i < A.m := by linarith [hg.2.1]
    have hbj : j1 + j < A.n := by linarith [hg.2.2.2.1]
    refine ⟨rfl, rfl, ?_, ?_, by decide, by decide, by decide⟩
    · intro h2 hset
      simp only [matrixview.set] at hset
      rw [if_pos ⟨hiV, hi0, hjV, hj0⟩] at hset
      have hh2 : h2 = Heap.write h A.dataId (i1 + j1 * A.m + i + j * A.m) x :=
        (Option.some.inj hset).symm
      subst hh2
      simp only [matrix.get]
      rw [if_pos ⟨hbi, hbj⟩, Heap.read_write, if_pos ⟨rfl, by ring⟩]
    · intro h2 hset
      simp only [matrix.set] at hset
      rw [if_pos ⟨hbi, hbj⟩] at hset
      have hh2 : h2 = Heap.write h A.dataId (i1 + i + (j1 + j) * A.m) x :=
        (Option.some.inj hset).symm
      subst hh2
      simp only [matrixview.get]
      rw [if_pos ⟨hiV, hi0, hjV, hj0⟩, Heap.read_write, if_pos ⟨rfl, by ring⟩]

/-- Witness for C2 at the concrete 4×3 scenario. -/
theorem C2_submatrix_aliasing_witness :
    demoA.submatrix 1 3 1 3 = some ⟨2, 2, 4, 5, 0⟩ ∧
    (∀ h2, matrixview.set demoH ⟨2, 2, 4, 5, 0⟩ 0 0 99 = some h2 →
      matrix.get h2 demoA (1 + 0) (1 + 0) = some 99) :=
  ⟨by decide,
   (C2_submatrix_aliasing demoH demoA ⟨2, 2, 4, 5, 0⟩ 1 3 1 3 0 0 99 (by decide)
      (by decide) (by decide) (by decide) (by decide)).2.2.1⟩

/-- C7: `row(i)` is a length-n view with stride equal to the leading
dimension addressing row i, `column(j)` is a length-m stride-1 view
addressing column j, and on a matrix filled with `A(i, j) = i + j` both
`row(i)[j]` and `column(j)[i]` read back `i + j`. -/
theorem C7_row_column_addressing (h : Heap) (A : matrix) (i j : Int)
    (hfill : ∀ i2 : Nat, i2 < A.m.toNat → ∀ j2 : Nat, j2 < A.n.toNat →
      matrix.get h A i2 j2 = some ((i2 : Int) + (j2 : Int)))
    (hi0 : 0 ≤ i) (him : i < A.m) (hj0 : 0 ≤ j) (hjn : j < A.n) :
    A.row i = some ⟨A.n, A.m, i, A.dataId⟩ ∧
    A.column j = some ⟨A.m, 1, j * A.m, A.dataId⟩ ∧
    vectorview.get h ⟨A.n, A.m, i, A.dataId⟩ j = some (i + j) ∧
    vectorview.get h ⟨A.m, 1, j * A.m, A.dataId⟩ i = some (i + j) := by
  have hA := hfill i.toNat (by omega) j.toNat (by omega)
  have hci : (i.toNat : Int) = i := by omega
  have hcj : (j.toNat : Int) = j := by omega
  rw [hci, hcj] at hA
  simp only [matrix.get] at hA
  rw [if_pos ⟨him, hjn⟩] at hA
  have hread : h.read A.dataId (i + j * A.m) = i + j := Option.some.inj hA
  refine ⟨?_, ?_, ?_, ?_⟩
  · simp only [matrix.row]
    rw [if_pos ⟨hi0, him⟩]
  · simp only [matrix.column]
    rw [if_pos ⟨hj0, hjn⟩]
  · simp only [vectorview.get]
    rw [if_pos ⟨hjn, hj0⟩]
    rw [hread]
  · simp only [vectorview.get]
    rw [if_pos ⟨him, hi0⟩]
    have harg : j * A.m + i * 1 = i + j * A.m := by ring
    rw [harg, hread]

/-- Witness for C7 on the 4×3 filled matrix. -/
theorem C7_row_column_addressing_witness :
    demoA.row 1 = some ⟨3, 4, 1, 0⟩ ∧
    demoA.column 2 = some ⟨4, 1, 8, 0⟩ ∧
    vectorview.get demoH ⟨3, 4, 1, 0⟩ 2 = some 3 ∧
    vectorview.get demoH ⟨4, 1, 8, 0⟩ 1 = some 3 :=
  C7_row_column_addressing demoH demoA 1 2 (by decide) (by decide) (by decide)
    (by decide) (by decide)

/-- C1: running the increment-every-element routine on a by-value copy of an
owning vector leaves every element of the caller's vector unchanged (the
copy constructor deep-copies into a fresh buffer), while running it on a
by-value copy of a vectorview increments every element seen through the
original view (the view copy constructor is shallow). -/
theorem C1_pass_by_value_mutation_visibility (h : Heap) (v : vector)
    (w : vectorview) (i : Int) (hv : v.dataId < h.next) (hs : 0 < w.stride)
    (hi0 : 0 ≤ i) (hiw : i < w.n) :
    (∀ k : Int, vector.get (add_one_value_vector h v) v k = vector.get h v k) ∧
    vectorview.get (add_one_value_vectorview h w) w i
      = (vectorview.get h w i).map (fun t => t + 1) := by
  constructor
  · intro k
    have hne : v.dataId ≠ h.next := Nat.ne_of_lt hv
    have hval : add_one_value_vector h v
        = (List.range v.n.toNat).foldl
            (fun hh x => hh.write h.next (x : Int) (hh.read h.next (x : Int) + 1))
            (vector.copyCtor h v).2 := rfl
    simp only [vector.get]
    by_cases hk : k < v.n ∧ 0 ≤ k
    · rw [if_pos hk, if_pos hk]
      have h1 : (add_one_value_vector h v).read v.dataId k
          = ((vector.copyCtor h v).2).read v.dataId k
            + (((List.range v.n.toNat).countP
                (fun x : Nat => decide (v.dataId = h.next ∧ k = (x : Int)))) : Int) := by
        rw [hval]
        exact bump_loop h.next (fun x : Nat => (x : Int)) (List.range v.n.toNat)
          ((vector.copyCtor h v).2) v.dataId k
      have hc0 : (List.range v.n.toNat).countP
          (fun x : Nat => decide (v.dataId = h.next ∧ k = (x : Int))) = 0 := by
        rw [List.countP_eq_zero]
        intro a _
        simp [hne]
      have hnd : ((List.range v.n.toNat).map (fun x : Nat => (x : Int))).Nodup :=
        (List.nodup_range v.n.toNat).map Nat.cast_injective
      have hcl := copy_loop h.next v.dataId hne (fun x : Nat => (x : Int))
        (fun x : Nat => (x : Int)) (List.range v.n.toNat) ⟨h.next + 1, h.mem⟩ hnd
      have h2 : ((vector.copyCtor h v).2).read v.dataId k = h.read v.dataId k :=
        hcl.1 v.dataId k hne
      rw [h1, hc0, h2]
      simp
    · rw [if_neg hk, if_neg hk]
  · have hval2 : add_one_value_vectorview h w
        = (List.range w.n.toNat).foldl
            (fun hh x => hh.write w.dataId (w.offset + (x : Int) * w.stride)
              (hh.read w.dataId (w.offset + (x : Int) * w.stride) + 1)) h := rfl
    simp only [vectorview.get]
    rw [if_pos ⟨hiw, hi0⟩, if_pos ⟨hiw, hi0⟩]
    have h1 : (add_one_value_vectorview h w).read w.dataId (w.offset + i * w.stride)
        = h.read w.dataId (w.offset + i * w.stride)
          + (((List.range w.n.toNat).countP
              (fun x : Nat => decide (w.dataId = w.dataId ∧
                w.offset + i * w.stride = w.offset + (x : Int) * w.stride))) : Int) := by
      rw [hval2]
      exact bump_loop w.dataId
        (fun x : Nat => w.offset + (x : Int) * w.stride)
        (List.range w.n.toNat) h w.dataId (w.offset + i * w.stride)
    have hcnt : (List.range w.n.toNat).countP
        (fun x : Nat => decide (w.dataId = w.dataId ∧
          w.offset + i * w.stride = w.offset + (x : Int) * w.stride)) = 1 := by
      have hstep : ∀ x ∈ List.range w.n.toNat,
          (decide (w.dataId = w.dataId ∧
            w.offset + i * w.stride = w.offset + (x : Int) * w.stride))
            = (decide (x = i.toNat)) := by
        intro x _
        apply decide_eq_decide.mpr
        constructor
        · rintro ⟨-, he⟩
          have hmul : i * w.stride = (x : Int) * w.stride := by linarith
          have hx : i = (x : Int) := mul_right_cancel₀ (ne_of_gt hs) hmul
          omega
        · intro hx
          refine ⟨rfl, ?_⟩
          have hxi : (x : Int) = i := by omega
          rw [hxi]
      rw [countP_congr' _ _ _ hstep]
      exact countP_range_self _ _ (by omega)
    rw [h1, hcnt]
    simp [Option.map]

/-- Witness for C1 at a concrete input. -/
theorem C1_pass_by_value_mutation_visibility_witness :
    (∀ k : Int,
      vector.get (add_one_value_vector hTwoBufs ⟨2, 0⟩) ⟨2, 0⟩ k
        = vector.get hTwoBufs ⟨2, 0⟩ k) ∧
    vectorview.get (add_one_value_vectorview hTwoBufs ⟨3, 2, 1, 1⟩) ⟨3, 2, 1, 1⟩ 2
      = (vectorview.get hTwoBufs ⟨3, 2, 1, 1⟩ 2).map (fun t => t + 1) :=
  C1_pass_by_value_mutation_visibility hTwoBufs ⟨2, 0⟩ ⟨3, 2, 1, 1⟩ 2 (by decide)
    (by decide) (by decide) (by decide)

/-- C8: copy assignment into an owning vector or matrix requires equal
extents (returning the assertion failure otherwise), copies every element by
index into the destination's existing buffer — the returned handle is the
destination itself, so the storage identity is unchanged — and leaves the
source's elements unchanged. -/
theorem C8_owning_copy_assign (h : Heap) (vd vs : vector) (A B : matrix)
    (hvne : vd.dataId ≠ vs.dataId) (hvn : vs.n = vd.n)
    (hmne : A.dataId ≠ B.dataId) (hBm : B.m = A.m) (hBn : B.n = A.n) :
    (∃ h2, vector.assign h vd vs = some (vd, h2) ∧
      (∀ i : Int, 0 ≤ i → i < vd.n →
        vector.get h2 vd i = vector.get h vs i) ∧
      (∀ i : Int, vector.get h2 vs i = vector.get h vs i)) ∧
    (∀ p q : vector, q.n ≠ p.n → vector.assign h p q = none) ∧
    (∃ h2, matrix.assign h A B = some (A, h2) ∧
      (∀ i j : Int, 0 ≤ i → i < A.m → 0 ≤ j → j < A.n →
        matrix.get h2 A i j = matrix.get h B i j) ∧
      (∀ i j : Int, matrix.get h2 B i j = matrix.get h B i j)) ∧
    (∀ P Q : matrix, ¬(Q.m = P.m ∧ Q.n = P.n) → matrix.assign h P Q = none) := by
  have hndv : ((List.range vd.n.toNat).map (fun x : Nat => (x : Int))).Nodup :=
    (List.nodup_range vd.n.toNat).map Nat.cast_injective
  have hclv := copy_loop vd.dataId vs.dataId (Ne.symm hvne)
    (fun x : Nat => (x : Int)) (fun x : Nat => (x : Int))
    (List.range vd.n.toNat) h hndv
  simp only at hclv
  refine ⟨?_, ?_, ?_, ?_⟩
  · refine ⟨(List.range vd.n.toNat).foldl
        (fun hh (x : Nat) => hh.write vd.dataId (x : Int) (hh.read vs.dataId (x : Int))) h,
      ?_, ?_, ?_⟩
    · simp only [vector.assign]
      rw [if_pos hvn]
    · intro i h0 hn
      have hns : i < vs.n := by omega
      simp only [vector.get]
      rw [if_pos ⟨hn, h0⟩, if_pos ⟨hns, h0⟩]
      have hmem : i.toNat ∈ List.range vd.n.toNat := List.mem_range.mpr (by omega)
      have hx := hclv.2.2 i.toNat hmem
      have hci : ((i.toNat : Nat) : Int) = i := by omega
      simp only at hx
      rw [hci] at hx
      rw [hx]
    · intro i
      simp only [vector.get]
      by_cases hk : i < vs.n ∧ 0 ≤ i
      · rw [if_pos hk, if_pos hk, hclv.1 vs.dataId i (Ne.symm hvne)]
      · rw [if_neg hk, if_neg hk]
  · intro p q hpq
    simp only [vector.assign]
    rw [if_neg hpq]
  · have hndp : ((List.range A.m.toNat) ×ˢ (List.range A.n.toNat)).Nodup :=
      (List.nodup_range A.m.toNat).product (List.nodup_range A.n.toNat)
    have hinj : ∀ x ∈ (List.range A.m.toNat) ×ˢ (List.range A.n.toNat),
        ∀ y ∈ (List.range A.m.toNat) ×ˢ (List.range A.n.toNat),
        ((x.1 : Int) + (x.2 : Int) * A.m) = ((y.1 : Int) + (y.2 : Int) * A.m) →
        x = y := by
      rintro ⟨x1, x2⟩ hx ⟨y1, y2⟩ hy hxy
      rw [List.mem_product] at hx hy
      have hx1 := List.mem_range.mp hx.1
      have hy1 := List.mem_range.mp hy.1
      have hres := colmajor_inj A.m (x1 : Int) (x2 : Int) (y1 : Int) (y2 : Int)
        (by omega) (by omega) (by omega) (by omega) hxy
      have e1 : x1 = y1 := by omega
      have e2 : x2 = y2 := by omega
      rw [e1, e2]
    have hndg : (((List.range A.m.toNat) ×ˢ (List.range A.n.toNat)).map
        (fun p : Nat × Nat => (p.1 : Int) + (p.2 : Int) * A.m)).Nodup :=
      List.Nodup.map_on hinj hndp
    have hclm := copy_loop A.dataId B.dataId (Ne.symm hmne)
      (fun p : Nat × Nat => (p.1 : Int) + (p.2 : Int) * A.m)
      (fun p : Nat × Nat => (p.1 : Int) + (p.2 : Int) * B.m)
      ((List.range A.m.toNat) ×ˢ (List.range A.n.toNat)) h hndg
    simp only at hclm
    have hflat : (List.range A.m.toNat).foldl
        (fun hh i2 => (List.range A.n.toNat).foldl
          (fun hh2 j2 => hh2.write A.dataId ((i2 : Int) + (j2 : Int) * A.m)
            (hh2.read B.dataId ((i2 : Int) + (j2 : Int) * B.m))) hh) h
        = ((List.range A.m.toNat) ×ˢ (List.range A.n.toNat)).foldl
            (fun hh p => hh.write A.dataId ((p.1 : Int) + (p.2 : Int) * A.m)
              (hh.read B.dataId ((p.1 : Int) + (p.2 : Int) * B.m))) h :=
      foldl_foldl_product (List.range A.m.toNat) (List.range A.n.toNat)
        (fun hh2 i2 j2 => hh2.write A.dataId ((i2 : Int) + (j2 : Int) * A.m)
          (hh2.read B.dataId ((i2 : Int) + (j2 : Int) * B.m))) h
    refine ⟨((List.range A.m.toNat) ×ˢ (List.range A.n.toNat)).foldl
        (fun hh p => hh.write A.dataId ((p.1 : Int) + (p.2 : Int) * A.m)
          (hh.read B.dataId ((p.1 : Int) + (p.2 : Int) * B.m))) h, ?_, ?_, ?_⟩
    · simp only [matrix.assign]
      rw [if_pos ⟨hBm, hBn⟩, hflat]
    · intro i j h0i hmi h0j hnj
      simp only [matrix.get]
      rw [if_pos ⟨hmi, hnj⟩, if_pos ⟨by omega, by omega⟩]
      have hmem : (i.toNat, j.toNat) ∈ (List.range A.m.toNat) ×ˢ (List.range A.n.toNat) := by
        rw [List.mem_product]
        exact ⟨List.mem_range.mpr (by omega), List.mem_range.mpr (by omega)⟩
      have hx := hclm.2.2 (i.toNat, j.toNat) hmem
      have hci : ((i.toNat : Nat) : Int) = i := by omega
      have hcj : ((j.toNat : Nat) : Int) = j := by omega
      simp only at hx
      rw [hci, hcj] at hx
      rw [hx]
    · intro i j
      simp only [matrix.get]
      by_cases hk : i < B.m ∧ j < B.n
      · rw [if_pos hk, if_pos hk, hclm.1 B.dataId (i + j * B.m) (Ne.symm hmne)]
      · rw [if_neg hk, if_neg hk]
  · intro P Q hpq
    simp only [matrix.assign]
    rw [if_neg hpq]

/-- Witness for C8 at concrete inputs. -/
theorem C8_owning_copy_assign_witness :
    (⟨2, 1⟩ : vector).n = (⟨2, 0⟩ : vector).n ∧
    (∃ h2, vector.assign hTwoBufs ⟨2, 0⟩ ⟨2, 1⟩ = some (⟨2, 0⟩, h2) ∧
      (∀ i : Int, 0 ≤ i → i < (⟨2, 0⟩ : vector).n →
        vector.get h2 ⟨2, 0⟩ i = vector.get hTwoBufs ⟨2, 1⟩ i) ∧
      (∀ i : Int, vector.get h2 ⟨2, 1⟩ i = vector.get hTwoBufs ⟨2, 1⟩ i)) :=
  ⟨by decide,
   (C8_owning_copy_assign hTwoBufs ⟨2, 0⟩ ⟨2, 1⟩ ⟨1, 2, 0⟩ ⟨1, 2, 1⟩ (by decide)
      (by decide) (by decide) (by decide) (by decide)).1⟩

end tws
